import Mathlib

/-!
Verification of the `tui-rs-file-dialog` crate (`src/lib.rs`) against its
natural-language specification.

The filesystem is modelled abstractly: a `FS` provides the primitives the
crate uses (`fs::read_dir`, `Path::is_file`, `Path::canonicalize`, and the
canonicalized working directory used at construction).  Paths are modelled as
lists of components, which matches Rust `Path` equality (trailing slashes and
the textual form of a `PathBuf` are invisible at the component level).
Strings are Lean `String`s processed through their character lists.
-/

namespace TuiFileDialog

/-- An entry returned by a directory scan: its file name and whether the
filesystem reports it as a directory (`DirEntry::file_type().is_dir()` /
`Path::is_dir()`; the model keeps the two consistent, as the crate is
single-threaded and the spec excludes filesystem races). -/
structure FsEntry where
  name : String
  isDir : Bool
deriving DecidableEq, Repr

/-- A path, as its list of components below the filesystem root.  `PathBuf::pop`
is `List.dropLast` (a no-op at the root, i.e. on `[]`). -/
abbrev FsPath := List String

/-- The single error kind of the crate: `std::io::Error`, carrying no
information the dialog inspects. -/
inductive IOError where
  | ioError
deriving DecidableEq, Repr

/-- The filesystem primitives the crate depends on.  `readDir` returns `none`
exactly when `fs::read_dir` fails; `canon` returns `none` when
`Path::canonicalize` fails; `cwd` is the canonicalized process working
directory (`PathBuf::from(".").canonicalize()`). -/
structure FS where
  cwd : FsPath
  readDir : FsPath → Option (List FsEntry)
  isFile : FsPath → Bool
  canon : FsPath → Option FsPath

/-! ### Character and string helpers (Rust `str` operations on `List Char`) -/

/-- `u8::to_ascii_lowercase`, per character. -/
def lowerChar (c : Char) : Char :=
  if 'A' ≤ c ∧ c ≤ 'Z' then Char.ofNat (c.toNat + 32) else c

/-- Does the string start with `'.'` (`str::starts_with('.')`)? -/
def startsWithDot (s : String) : Bool :=
  match s.data with
  | [] => false
  | c :: _ => c = '.'

/-- The last character of a string, defaulting to `' '`.  The source calls
`s.chars().last().unwrap()`, which panics on the empty string; scanned entry
names are never empty, so the default is never observable there. -/
def lastCharD (s : String) : Char :=
  s.data.getLast?.getD ' '

/-- `needle` occurs at the front of `hay`. -/
def leadMatch : List Char → List Char → Bool
  | _, [] => true
  | [], _ :: _ => false
  | h :: hs, n :: ns => h = n && leadMatch hs ns

/-- `str::contains(needle)`: `needle` occurs contiguously in `hay`. -/
def containsChars : List Char → List Char → Bool
  | [], needle => needle.isEmpty
  | h :: t, needle => leadMatch (h :: t) needle || containsChars t needle

/-- The characters after the last `'.'` of the list, when a `'.'` occurs. -/
def afterLastDot : List Char → Option (List Char)
  | [] => none
  | c :: cs =>
    match afterLastDot cs with
    | some r => some r
    | none => if c = '.' then some cs else none

/-- Rust `Path::extension` on a file name: `none` when there is no `'.'`, or
when the name begins with `'.'` and has no other `'.'`; otherwise the portion
after the final `'.'`. -/
def extensionOf (n : String) : Option (List Char) :=
  match n.data with
  | [] => none
  | c :: cs => if c = '.' then afterLastDot cs else afterLastDot (c :: cs)

/-! ### `FilePattern` -/

/-- A pattern that can be used to filter the displayed files. -/
inductive FilePattern where
  /-- Filter by file extension.  This filter is case insensitive. -/
  | Extension (s : String)
  /-- Filter by substring.  This filter is case sensitive. -/
  | Substring (s : String)
deriving DecidableEq, Repr

/-- `FilePattern::matches`: always true for directories; `Extension` compares
the file name's extension to the pattern ASCII-case-insensitively;
`Substring` asks whether the file name contains the pattern. -/
def FilePattern.matches (p : FilePattern) (isDir : Bool) (name : String) : Bool :=
  if isDir then true
  else
    match p with
    | .Extension ext =>
      match extensionOf name with
      | some e => e.map lowerChar = ext.data.map lowerChar
      | none => false
    | .Substring sub => containsChars name.data sub.data

/-! ### The scan: filtering, display strings, and the sort comparator -/

/-- The filter closure of `update_entries`: an entry whose name starts with
`'.'` is kept iff `show_hidden` (the pattern filter is not consulted on that
path); otherwise the pattern filter decides when present, and everything is
kept when absent. -/
def keepEntry (filter : Option FilePattern) (show_hidden : Bool) (e : FsEntry) : Bool :=
  if startsWithDot e.name then show_hidden
  else
    match filter with
    | some f => f.matches e.isDir e.name
    | none => true

/-- The display string of a scanned entry: directories gain a trailing `'/'`. -/
def display (e : FsEntry) : String :=
  if e.isDir then e.name ++ "/" else e.name

/-- Comparison of two characters by code point (Rust compares strings
byte-wise; UTF-8 byte order agrees with code-point order). -/
def charCmp (a b : Char) : Ordering :=
  if a.toNat < b.toNat then .lt else if b.toNat < a.toNat then .gt else .eq

/-- Lexicographic comparison of character lists (Rust `String::cmp`). -/
def lexCmp : List Char → List Char → Ordering
  | [], [] => .eq
  | [], _ :: _ => .lt
  | _ :: _, [] => .gt
  | a :: as, b :: bs =>
    match charCmp a b with
    | .eq => lexCmp as bs
    | o => o

/-- The `sort_by` comparator of `update_entries`: `".."` first, then entries
whose last character is `'/'` before the rest, lexicographic within. -/
def entryCmp (a b : String) : Ordering :=
  if a = ".." then .lt
  else if b = ".." then .gt
  else if lastCharD a = '/' then
    if lastCharD b = '/' then lexCmp a.data b.data else .lt
  else if lastCharD b = '/' then .gt
  else lexCmp a.data b.data

/-- The `≤` relation induced by the comparator. -/
def entryLE (a b : String) : Prop := entryCmp a b ≠ .gt

instance : DecidableRel entryLE := fun a b =>
  inferInstanceAs (Decidable (entryCmp a b ≠ .gt))

/-- The listing produced by a successful scan of `entries`: prepend `".."`,
filter, render display strings, and sort stably by the comparator.  Rust's
`sort_by` is a stable sort; for this comparator (a total preorder, proved
below) every stable sort produces the same list, so a stable insertion sort
models it exactly. -/
def scanItems (filter : Option FilePattern) (show_hidden : Bool)
    (entries : List FsEntry) : List String :=
  List.insertionSort entryLE
    (".." :: (entries.filter (keepEntry filter show_hidden)).map display)

/-! ### The dialog state and its operations -/

/-- The file dialog state (`struct FileDialog`); `list_state` is the
`ListState` reduced to its `selected()` index, the only part the logic reads. -/
structure FileDialog where
  width : Nat
  height : Nat
  filter : Option FilePattern
  «open» : Bool
  current_dir : FsPath
  show_hidden : Bool
  default_bindings : Bool
  multi_selection : Bool
  list_state : Option Nat
  items : List String
  selected_indices : Finset Nat
deriving DecidableEq

namespace FileDialog

/-- `FileDialog::next`: cursor to `min(items.len() - 1, i + 1)` when set, else
to `min(items.len().saturating_sub(1), 1)`.  `Nat` subtraction is saturating,
which matches the `None` branch exactly; in the `Some` branch the source's
`items.len() - 1` underflows when `items` is empty (a state no reachable
dialog has, since `".."` is always present). -/
def next (s : FileDialog) : FileDialog :=
  let i := match s.list_state with
    | some i => min (s.items.length - 1) (i + 1)
    | none => min (s.items.length - 1) 1
  { s with list_state := some i }

/-- `FileDialog::previous`: cursor to `i.saturating_sub(1)` when set, else 0. -/
def previous (s : FileDialog) : FileDialog :=
  let i := match s.list_state with
    | some i => i - 1
    | none => 0
  { s with list_state := some i }

/-- `FileDialog::open` (named `openDialog` here because `open` is reserved):
clears the selected indices and opens the dialog. -/
def openDialog (s : FileDialog) : FileDialog :=
  { s with selected_indices := ∅, «open» := true }

/-- `FileDialog::close`. -/
def close (s : FileDialog) : FileDialog :=
  { s with «open» := false }

/-- `FileDialog::is_open`. -/
def is_open (s : FileDialog) : Bool := s.«open»

/-- `FileDialog::set_multi_selection`. -/
def set_multi_selection (b : Bool) (s : FileDialog) : FileDialog :=
  { s with multi_selection := b }

/-- `FileDialog::default_bindings` (the setter; named apart from the field). -/
def set_default_bindings (b : Bool) (s : FileDialog) : FileDialog :=
  { s with default_bindings := b }

/-- `FileDialog::update_entries`: on `read_dir` failure the error propagates
before `self.items` is assigned, so `items` and the cursor keep their previous
values; on success the freshly scanned listing is installed, the cursor is
cleared and `next()` is called. -/
def update_entries (fs : FS) (s : FileDialog) : FileDialog × Option IOError :=
  match fs.readDir s.current_dir with
  | none => (s, some .ioError)
  | some entries =>
    (next { s with
        items := scanItems s.filter s.show_hidden entries,
        list_state := none },
      none)

/-- `FileDialog::set_filter`: installs the filter, then rescans. -/
def set_filter (fs : FS) (f : FilePattern) (s : FileDialog) : FileDialog × Option IOError :=
  update_entries fs { s with filter := some f }

/-- `FileDialog::reset_filter`: removes the filter, then rescans. -/
def reset_filter (fs : FS) (s : FileDialog) : FileDialog × Option IOError :=
  update_entries fs { s with filter := none }

/-- `FileDialog::toggle_show_hidden`: flips the flag, then rescans. -/
def toggle_show_hidden (fs : FS) (s : FileDialog) : FileDialog × Option IOError :=
  update_entries fs { s with show_hidden := !s.show_hidden }

/-- `FileDialog::set_dir`: canonicalize, install the directory, rescan. -/
def set_dir (fs : FS) (dir : FsPath) (s : FileDialog) : FileDialog × Option IOError :=
  match fs.canon dir with
  | none => (s, some .ioError)
  | some d => update_entries fs { s with current_dir := d }

/-- `FileDialog::up`: pop one component (a no-op at the root), clear the
selected indices, rescan. -/
def up (fs : FS) (s : FileDialog) : FileDialog × Option IOError :=
  update_entries fs
    { s with current_dir := s.current_dir.dropLast, selected_indices := ∅ }

/-- Joining `current_dir` with a listed entry (`current_dir.join(&items[i])`):
one more component; a trailing `'/'` of the display string does not create a
component (Rust `Path` components ignore it). -/
def joinEntry (dir : FsPath) (e : String) : FsPath :=
  dir ++ [if lastCharD e = '/' then String.mk e.data.dropLast else e]

/-- `FileDialog::toggle_selection`: with no cursor behaves as `next()`; with a
cursor flips membership of the cursor's index in `selected_indices`,
regardless of what kind of row the index denotes. -/
def toggle_selection (s : FileDialog) : FileDialog :=
  match s.list_state with
  | none => next s
  | some i =>
    if i ∈ s.selected_indices then
      { s with selected_indices := s.selected_indices.erase i }
    else
      { s with selected_indices := insert i s.selected_indices }

/-- `FileDialog::selected_files`: `None` while open; when closed, the joined
paths of the selected indices (an unordered collection — `HashSet` iteration
order is unspecified, so the result is a `Multiset`), clearing the indices.
The source indexes `self.items[*i]`, which panics when an index is out of
bounds (such states are reachable, see the C2 analysis); the model reads the
out-of-bounds entry as `""`. -/
def selected_files (s : FileDialog) :
    FileDialog × Option (Multiset FsPath) :=
  if s.«open» then (s, none)
  else
    ({ s with selected_indices := ∅ },
      some (s.selected_indices.val.map
        (fun i => joinEntry s.current_dir (s.items.getD i ""))))

/-- `FileDialog::select`: with no cursor just `next()`; on a file, toggle the
selection and close unless in multi-selection mode; otherwise canonicalize the
joined path (propagating failure with no state change), commit it as
`current_dir`, clear the selected indices, and rescan. -/
def select (fs : FS) (s : FileDialog) : FileDialog × Option IOError :=
  match s.list_state with
  | none => (next s, none)
  | some i =>
    let path := joinEntry s.current_dir (s.items.getD i "")
    if fs.isFile path then
      let s1 := toggle_selection s
      if !s1.multi_selection then (close s1, none) else (s1, none)
    else
      match fs.canon path with
      | none => (s, some .ioError)
      | some d =>
        update_entries fs { s with current_dir := d, selected_indices := ∅ }

/-- `FileDialog::new`: clamp the percentages to 100, start closed at the
canonicalized working directory with no filter, hidden files off, no
multi-selection; construction fails outright when the initial scan fails. -/
def new (fs : FS) (width height : Nat) : Option FileDialog :=
  let s : FileDialog :=
    { width := min width 100
      height := min height 100
      filter := none
      «open» := false
      current_dir := fs.cwd
      show_hidden := false
      default_bindings := false
      multi_selection := false
      list_state := none
      items := []
      selected_indices := ∅ }
  match update_entries fs s with
  | (s1, none) => some s1
  | (_, some _) => none

end FileDialog

/-- One mutating call of the public API, for reachability statements. -/
inductive Op where
  | next | previous | openDialog | close | toggle_selection
  | up | select | reset_filter | toggle_show_hidden
  | set_filter (f : FilePattern)
  | set_dir (d : FsPath)
  | set_multi_selection (b : Bool)
  | set_default_bindings (b : Bool)
  | selected_files

/-- Apply one operation against a filesystem (the filesystem may differ from
call to call: it is external, mutable state). -/
def applyOp (fs : FS) (s : FileDialog) : Op → FileDialog × Option IOError
  | .next => (s.next, none)
  | .previous => (s.previous, none)
  | .openDialog => (s.openDialog, none)
  | .close => (s.close, none)
  | .toggle_selection => (s.toggle_selection, none)
  | .up => s.up fs
  | .select => s.select fs
  | .reset_filter => s.reset_filter fs
  | .toggle_show_hidden => s.toggle_show_hidden fs
  | .set_filter f => s.set_filter fs f
  | .set_dir d => s.set_dir fs d
  | .set_multi_selection b => (s.set_multi_selection b, none)
  | .set_default_bindings b => (s.set_default_bindings b, none)
  | .selected_files => ((s.selected_files).1, none)

/-- Dialog states reachable from a successful construction through any
sequence of API calls, against arbitrary (possibly changing) filesystems. -/
inductive Reachable : FileDialog → Prop where
  | init (fs : FS) (w h : Nat) (s : FileDialog) :
      FileDialog.new fs w h = some s → Reachable s
  | step (fs : FS) (op : Op) (s : FileDialog) :
      Reachable s → Reachable (applyOp fs s op).1

/-! ### Formalizations of the claims' own wording (for refinement comparison) -/

/-- Does the display string end in `'/'` (the claims' directory marker)? -/
def endsSlash (s : String) : Bool := decide (lastCharD s = '/')

/-- The order claim C7 asserts between two non-`".."` listing entries: every
`'/'`-suffixed entry precedes every other, and within the two groups the
display strings ascend lexicographically. -/
def specOrder (a b : String) : Prop :=
  (endsSlash a = true ∧ endsSlash b = false) ∨
    (endsSlash a = endsSlash b ∧ lexCmp a.data b.data ≠ .gt)

/-- The keep/skip rule exactly as claim C3 words it: skip when hidden and
`show_hidden` is off; otherwise keep directories unconditionally, and keep a
file only when the filter is absent or matches — so a hidden file shown under
`show_hidden := true` must still pass the filter. -/
def claimKeep (filter : Option FilePattern) (show_hidden : Bool) (e : FsEntry) : Bool :=
  if startsWithDot e.name && !show_hidden then false
  else if e.isDir then true
  else
    match filter with
    | some f => f.matches e.isDir e.name
    | none => true

/-- The keep/skip rule as the amended claim C3 words it: an entry whose name
starts with `'.'` is kept iff `show_hidden`, with the filter not consulted;
any other directory is kept unconditionally; any other file is kept iff the
filter is absent or matches. -/
def amendedKeep (filter : Option FilePattern) (show_hidden : Bool) (e : FsEntry) : Bool :=
  if startsWithDot e.name then show_hidden
  else if e.isDir then true
  else
    match filter with
    | some f => f.matches e.isDir e.name
    | none => true

/-- `needle` occurs at the end of `hay`. -/
def tailMatch (hay needle : List Char) : Bool :=
  leadMatch hay.reverse needle.reverse

/-- `FilePattern::matches` exactly as claim C8 words it: `Extension(s)` as a
case-insensitive suffix match of `s` against the file name. -/
def claimMatches (p : FilePattern) (isDir : Bool) (name : String) : Bool :=
  if isDir then true
  else
    match p with
    | .Extension ext => tailMatch (name.data.map lowerChar) (ext.data.map lowerChar)
    | .Substring sub => containsChars name.data sub.data

/-- One cursor move, for claim C9's move sequences. -/
inductive NavOp where
  | fwd
  | back

/-- Run one cursor move. -/
def navStep (s : FileDialog) : NavOp → FileDialog
  | .fwd => s.next
  | .back => s.previous

/-- Run a sequence of cursor moves. -/
def navRun : FileDialog → List NavOp → FileDialog
  | s, [] => s
  | s, o :: os => navRun (navStep s o) os

/-- The cursor, when set, is a valid index into `items`. -/
def cursorInBounds (s : FileDialog) : Prop :=
  ∀ i, s.list_state = some i → i < s.items.length

/-! ### Concrete fixtures for counterexamples and witnesses -/

/-- A dialog in its just-constructed shape over an empty listing, used as a
base for concrete states. -/
def baseDialog : FileDialog :=
  { width := 10
    height := 10
    filter := none
    «open» := false
    current_dir := ["home"]
    show_hidden := false
    default_bindings := false
    multi_selection := false
    list_state := none
    items := [".."]
    selected_indices := ∅ }

/-- A filesystem on which every scan and canonicalization fails. -/
def fsAllFail : FS :=
  { cwd := ["home"]
    readDir := fun _ => none
    isFile := fun _ => false
    canon := fun _ => none }

/-- A filesystem whose working directory holds the two plain files `a.txt`
and `b.toml`. -/
def fsTwoFiles : FS :=
  { cwd := ["home"]
    readDir := fun p =>
      if p = ["home"] then some [⟨"a.txt", false⟩, ⟨"b.toml", false⟩] else none
    isFile := fun p => p = ["home", "a.txt"] ∨ p = ["home", "b.toml"]
    canon := fun p => some p }

/-- A filesystem whose working directory holds one hidden file `.a.txt`. -/
def fsHidden : FS :=
  { cwd := ["home"]
    readDir := fun p =>
      if p = ["home"] then some [⟨".a.txt", false⟩] else none
    isFile := fun p => p = ["home", ".a.txt"]
    canon := fun p => some p }

/-- A filesystem whose working directory holds two plain files, a
subdirectory and a hidden directory. -/
def fsDemo : FS :=
  { cwd := ["home"]
    readDir := fun p =>
      if p = ["home"] then
        some [⟨"b.txt", false⟩, ⟨"sub", true⟩, ⟨"a.toml", false⟩, ⟨".git", true⟩]
      else none
    isFile := fun p => p = ["home", "a.toml"] ∨ p = ["home", "b.txt"]
    canon := fun p => if p = ["home", "sub"] then some ["home", "sub"] else none }

/-- A closed dialog whose cursor sits on the `".."` row. -/
def c1dialog : FileDialog :=
  { baseDialog with list_state := some 0 }

/-- A dialog showing hidden files with an extension filter installed. -/
def c3dialog : FileDialog :=
  { baseDialog with show_hidden := true, filter := some (.Extension "toml") }

/-- A closed dialog with one selected file row. -/
def c4dialog : FileDialog :=
  { baseDialog with items := ["..", "a.txt"], selected_indices := {1} }

/-- The dialog `FileDialog::new` constructs over `fsTwoFiles` (the C5 witness
checks this by evaluation). -/
def c5dialog : FileDialog :=
  { width := 10
    height := 10
    filter := none
    «open» := false
    current_dir := ["home"]
    show_hidden := false
    default_bindings := false
    multi_selection := false
    list_state := some 1
    items := ["..", "a.txt", "b.toml"]
    selected_indices := ∅ }

/-- An open single-selection dialog whose cursor rests on the file row
`"a.txt"`. -/
def c6dialog : FileDialog :=
  { baseDialog with «open» := true, items := ["..", "a.txt"], list_state := some 1 }

/-- A dialog with an empty listing and no cursor (the state claim C9's
empty-items clause speaks about). -/
def c9empty : FileDialog :=
  { baseDialog with items := [], list_state := none }

/-- An open multi-selection dialog whose cursor sits on the `".."` pseudo-row,
with a directory row below. -/
def c10dialog : FileDialog :=
  { baseDialog with
    «open» := true
    multi_selection := true
    items := ["..", "sub/"]
    list_state := some 0 }

/-! ### Properties of the sort comparator -/

theorem charCmp_eq_lt {a b : Char} : charCmp a b = .lt ↔ a.toNat < b.toNat := by
  unfold charCmp
  split_ifs with h1 h2 <;> simp_all

theorem charCmp_eq_eq {a b : Char} : charCmp a b = .eq ↔ a.toNat = b.toNat := by
  unfold charCmp
  split_ifs with h1 h2 <;> simp_all <;> omega

theorem charCmp_swap (a b : Char) : charCmp b a = (charCmp a b).swap := by
  unfold charCmp
  split_ifs with h1 h2 <;> simp_all [Ordering.swap]
  omega

theorem lexCmp_nil_left (bs : List Char) : lexCmp [] bs ≠ .gt := by
  cases bs <;> simp [lexCmp]

theorem lexCmp_cons_cons (a b : Char) (as bs : List Char) :
    lexCmp (a :: as) (b :: bs) =
      match charCmp a b with
      | .eq => lexCmp as bs
      | o => o := rfl

theorem lexCmp_swap : ∀ as bs : List Char, lexCmp bs as = (lexCmp as bs).swap := by
  intro as
  induction as with
  | nil => intro bs; cases bs <;> simp [lexCmp, Ordering.swap]
  | cons a as ih =>
    intro bs
    cases bs with
    | nil => simp [lexCmp, Ordering.swap]
    | cons b bs =>
      rw [lexCmp_cons_cons, lexCmp_cons_cons, charCmp_swap]
      cases hab : charCmp a b <;> simp [Ordering.swap, ih]

theorem lexCmp_le_trans :
    ∀ as bs cs : List Char, lexCmp as bs ≠ .gt → lexCmp bs cs ≠ .gt → lexCmp as cs ≠ .gt := by
  intro as
  induction as with
  | nil => intro bs cs _ _; exact lexCmp_nil_left cs
  | cons a as ih =>
    intro bs cs h1 h2
    cases bs with
    | nil => simp [lexCmp] at h1
    | cons b bs =>
      cases cs with
      | nil => simp [lexCmp] at h2
      | cons c cs =>
        rw [lexCmp_cons_cons] at h1 ⊢
        rw [lexCmp_cons_cons] at h2
        cases hab : charCmp a b with
        | gt => simp [hab] at h1
        | lt =>
          have hab' := charCmp_eq_lt.1 hab
          cases hbc : charCmp b c with
          | gt => simp [hbc] at h2
          | lt =>
            have hbc' := charCmp_eq_lt.1 hbc
            have hac : charCmp a c = .lt := charCmp_eq_lt.2 (by omega)
            simp [hac]
          | eq =>
            have hbc' := charCmp_eq_eq.1 hbc
            have hac : charCmp a c = .lt := charCmp_eq_lt.2 (by omega)
            simp [hac]
        | eq =>
          have hab' := charCmp_eq_eq.1 hab
          simp [hab] at h1
          cases hbc : charCmp b c with
          | gt => simp [hbc] at h2
          | lt =>
            have hbc' := charCmp_eq_lt.1 hbc
            have hac : charCmp a c = .lt := charCmp_eq_lt.2 (by omega)
            simp [hac]
          | eq =>
            have hbc' := charCmp_eq_eq.1 hbc
            simp [hbc] at h2
            have hac : charCmp a c = .eq := charCmp_eq_eq.2 (by omega)
            simp [hac]
            exact ih bs cs h1 h2

theorem entryLE_total : ∀ a b : String, entryLE a b ∨ entryLE b a := by
  intro a b
  unfold entryLE entryCmp
  by_cases ha : a = ".."
  · left; simp [ha]
  · by_cases hb : b = ".."
    · right; simp [hb]
    · by_cases sa : lastCharD a = '/'
      · by_cases sb : lastCharD b = '/'
        · by_cases hg : lexCmp a.data b.data = .gt
          · right
            simp only [ha, hb, sa, sb, if_false, if_true]
            rw [lexCmp_swap, hg]
            decide
          · left; simp [ha, hb, sa, sb, hg]
        · left; simp [ha, hb, sa, sb]
      · by_cases sb : lastCharD b = '/'
        · right; simp [ha, hb, sa, sb]
        · by_cases hg : lexCmp a.data b.data = .gt
          · right
            simp only [ha, hb, sa, sb, if_false, if_true]
            rw [lexCmp_swap, hg]
            decide
          · left; simp [ha, hb, sa, sb, hg]

theorem entryLE_trans : ∀ a b c : String, entryLE a b → entryLE b c → entryLE a c := by
  intro a b c h1 h2
  unfold entryLE entryCmp at h1 h2 ⊢
  by_cases ha : a = ".."
  · simp [ha]
  · by_cases hb : b = ".."
    · exfalso; simp [ha, hb] at h1
    · by_cases hc : c = ".."
      · exfalso; simp [hb, hc] at h2
      · by_cases sa : lastCharD a = '/'
        · by_cases sc : lastCharD c = '/'
          · by_cases sb : lastCharD b = '/'
            · simp [ha, hb, sa, sb] at h1
              simp [hb, hc, sb, sc] at h2
              simp [ha, hc, sa, sc]
              exact lexCmp_le_trans _ _ _ h1 h2
            · exfalso; simp [hb, hc, sb, sc] at h2
          · simp [ha, hc, sa, sc]
        · by_cases sb : lastCharD b = '/'
          · exfalso; simp [ha, hb, sa, sb] at h1
          · by_cases sc : lastCharD c = '/'
            · exfalso; simp [hb, hc, sb, sc] at h2
            · simp [ha, hb, sa, sb] at h1
              simp [hb, hc, sb, sc] at h2
              simp [ha, hc, sa, sc]
              exact lexCmp_le_trans _ _ _ h1 h2

instance : IsTotal String entryLE := ⟨entryLE_total⟩

instance : IsTrans String entryLE := ⟨entryLE_trans⟩

theorem entryLE_dotdot {a : String} (h : entryLE a "..") : a = ".." := by
  by_cases ha : a = ".."
  · exact ha
  · exfalso
    unfold entryLE entryCmp at h
    simp [ha] at h

/-! ### The shape of a scanned listing -/

theorem insertionSort_dotdot_head (l : List String) :
    (List.insertionSort entryLE (".." :: l)).head? = some ".." := by
  have hperm := List.perm_insertionSort entryLE (".." :: l)
  have hsorted := List.sorted_insertionSort entryLE (".." :: l)
  cases hres : List.insertionSort entryLE (".." :: l) with
  | nil =>
    have hlen := hperm.length_eq
    rw [hres] at hlen
    simp at hlen
  | cons h t =>
    have hmem : (".." : String) ∈ h :: t := by
      rw [← hres]
      exact (List.mem_insertionSort entryLE).2 (List.mem_cons_self _ _)
    rw [hres] at hsorted
    rcases List.mem_cons.1 hmem with he | ht
    · simp [← he]
    · have hle : entryLE h ".." := (List.sorted_cons.1 hsorted).1 _ ht
      simp [entryLE_dotdot hle]

theorem scanItems_head (f : Option FilePattern) (h : Bool) (es : List FsEntry) :
    (scanItems f h es).head? = some ".." :=
  insertionSort_dotdot_head _

theorem next_items (s : FileDialog) : s.next.items = s.items := rfl

theorem previous_items (s : FileDialog) : s.previous.items = s.items := rfl

/-- A rescan either leaves `items` untouched (the scan failed before the
assignment) or installs a listing headed by `".."`. -/
theorem update_entries_items (fs : FS) (s : FileDialog) :
    (s.update_entries fs).1.items = s.items ∨
      (s.update_entries fs).1.items.head? = some ".." := by
  unfold FileDialog.update_entries
  cases fs.readDir s.current_dir with
  | none => left; rfl
  | some es =>
    right
    rw [next_items]
    exact scanItems_head _ _ _

theorem toggle_selection_items (s : FileDialog) : s.toggle_selection.items = s.items := by
  unfold FileDialog.toggle_selection
  cases hls : s.list_state with
  | none => exact next_items s
  | some i =>
    dsimp only
    split <;> rfl

theorem selected_files_items (s : FileDialog) : s.selected_files.1.items = s.items := by
  unfold FileDialog.selected_files
  split <;> rfl

/-- A rescan launched from a state whose `items` equal `s.items` either keeps
them or installs a listing headed by `".."`. -/
theorem update_entries_items_of (fs : FS) (s t : FileDialog) (h : t.items = s.items) :
    (t.update_entries fs).1.items = s.items ∨
      (t.update_entries fs).1.items.head? = some ".." := by
  rcases update_entries_items fs t with h1 | h1
  · left; rw [h1, h]
  · right; exact h1

/-- A successful rescan installs a listing headed by `".."`. -/
theorem update_entries_ok_items (fs : FS) (s t : FileDialog)
    (h : s.update_entries fs = (t, none)) : t.items.head? = some ".." := by
  unfold FileDialog.update_entries at h
  cases hrd : fs.readDir s.current_dir with
  | none => rw [hrd] at h; simp at h
  | some es =>
    rw [hrd] at h
    have ht := congrArg Prod.fst h
    simp only [Prod.fst] at ht
    rw [← ht, next_items]
    exact scanItems_head _ _ _

theorem set_dir_items_or (fs : FS) (d : FsPath) (s : FileDialog) :
    (s.set_dir fs d).1.items = s.items ∨ (s.set_dir fs d).1.items.head? = some ".." := by
  unfold FileDialog.set_dir
  cases hc : fs.canon d with
  | none => left; rfl
  | some d2 => exact update_entries_items_of fs s _ rfl

theorem select_items_or (fs : FS) (s : FileDialog) :
    (s.select fs).1.items = s.items ∨ (s.select fs).1.items.head? = some ".." := by
  unfold FileDialog.select
  cases hls : s.list_state with
  | none => left; exact next_items s
  | some i =>
    dsimp only
    split_ifs with hf hm
    · left; exact toggle_selection_items s
    · left; exact toggle_selection_items s
    · cases hc : fs.canon (FileDialog.joinEntry s.current_dir (s.items.getD i "")) with
      | none => left; rfl
      | some d => exact update_entries_items_of fs s _ rfl

/-- No operation can leave `items` other than untouched or freshly scanned
with `".."` in front. -/
theorem applyOp_items (fs : FS) (s : FileDialog) (op : Op) :
    (applyOp fs s op).1.items = s.items ∨
      (applyOp fs s op).1.items.head? = some ".." := by
  cases op with
  | next => left; exact next_items s
  | previous => left; exact previous_items s
  | openDialog => left; rfl
  | close => left; rfl
  | toggle_selection => left; exact toggle_selection_items s
  | up => exact update_entries_items_of fs s _ rfl
  | select => exact select_items_or fs s
  | reset_filter => exact update_entries_items_of fs s _ rfl
  | toggle_show_hidden => exact update_entries_items_of fs s _ rfl
  | set_filter f => exact update_entries_items_of fs s _ rfl
  | set_dir d => exact set_dir_items_or fs d s
  | set_multi_selection b => left; rfl
  | set_default_bindings b => left; rfl
  | selected_files => left; exact selected_files_items s

/-- Any reachable dialog's listing is headed by the literal `".."`. -/
theorem reachable_items_head {s : FileDialog} (h : Reachable s) :
    s.items.head? = some ".." := by
  induction h with
  | init fs w ht t hnew =>
    unfold FileDialog.new at hnew
    dsimp only at hnew
    split at hnew
    · injection hnew with hs
      subst hs
      exact update_entries_ok_items fs _ _ (by assumption)
    · exact absurd hnew (by simp)
  | step fs op t hr ih =>
    rcases applyOp_items fs t op with h1 | h1
    · rw [h1]; exact ih
    · exact h1

/-!
### C5 — `items` is never empty and starts with `".."`
-/

/-- C5: after construction and after every operation, `items` is non-empty
and its first element is the literal `".."`: the scan always prepends `".."`
regardless of the filter and hidden settings, and the sort keeps it first. -/
theorem C5_first_item_always_parent {s : FileDialog} (h : Reachable s) :
    s.items ≠ [] ∧ s.items.head? = some ".." := by
  have hh := reachable_items_head h
  refine ⟨?_, hh⟩
  intro hnil
  rw [hnil] at hh
  simp at hh

/-- Witness for C5 at a dialog actually constructed over a concrete
filesystem. -/
theorem C5_witness : c5dialog.items ≠ [] ∧ c5dialog.items.head? = some ".." :=
  C5_first_item_always_parent (Reachable.init fsTwoFiles 10 10 c5dialog (by decide))

/-!
### C7 — the sort order of a scanned listing
-/

theorem display_ne_dotdot {e : FsEntry} (h : e.name ≠ "..") : display e ≠ ".." := by
  unfold display
  split
  · intro hc
    have hlast : lastCharD (e.name ++ "/") = '/' := by
      unfold lastCharD
      rw [String.data_append, show ("/" : String).data = ['/'] from rfl,
        List.getLast?_concat]
      rfl
    rw [hc] at hlast
    exact absurd hlast (by decide)
  · exact h

theorem entryLE_specOrder {a b : String} (ha : a ≠ "..") (hb : b ≠ "..")
    (h : entryLE a b) : specOrder a b := by
  unfold entryLE entryCmp at h
  unfold specOrder endsSlash
  by_cases sa : lastCharD a = '/'
  · by_cases sb : lastCharD b = '/'
    · right
      refine ⟨by simp [sa, sb], ?_⟩
      simpa [ha, hb, sa, sb] using h
    · left
      exact ⟨by simp [sa], by simp [sb]⟩
  · by_cases sb : lastCharD b = '/'
    · exfalso
      simp [ha, hb, sa, sb] at h
    · right
      refine ⟨by simp [sa, sb], ?_⟩
      simpa [ha, hb, sa, sb] using h

/-- No element of the tail of a scanned listing is `".."`, provided the
filesystem reported no entry named `".."` (Rust's `read_dir` never does). -/
theorem scanItems_tail_no_dotdot (f : Option FilePattern) (hid : Bool)
    (es : List FsEntry) (hn : ∀ e ∈ es, e.name ≠ "..") :
    ∀ x ∈ (scanItems f hid es).tail, x ≠ ".." := by
  have hnd : (".." : String) ∉ (es.filter (keepEntry f hid)).map display := by
    intro hm
    rcases List.mem_map.1 hm with ⟨e, he, hde⟩
    exact display_ne_dotdot (hn e (List.mem_of_mem_filter he)) hde
  have hperm := List.perm_insertionSort entryLE
    (".." :: (es.filter (keepEntry f hid)).map display)
  have hcount : List.count ".." (scanItems f hid es) = 1 := by
    unfold scanItems
    rw [hperm.count_eq]
    simp [List.count_cons, List.count_eq_zero.2 hnd]
  have hhead := scanItems_head f hid es
  intro x hx
  cases hs : scanItems f hid es with
  | nil => rw [hs] at hhead; simp at hhead
  | cons h t =>
    rw [hs] at hhead hcount hx
    simp at hhead
    simp only [List.tail_cons] at hx
    intro hxe
    subst hxe
    rw [List.count_cons, hhead] at hcount
    simp at hcount
    exact absurd hx (List.count_eq_zero.1 hcount)

/-- On a successful scan the new `items` are exactly the scan of the entries
the filesystem returned. -/
theorem update_entries_eq_scan (fs : FS) (s : FileDialog) (entries : List FsEntry)
    (hrd : fs.readDir s.current_dir = some entries) :
    (s.update_entries fs).1.items = scanItems s.filter s.show_hidden entries := by
  unfold FileDialog.update_entries
  rw [hrd]
  rfl

/-- C7: in every scanned listing `".."` is first; after it, every entry whose
display string ends in `'/'` precedes every entry that does not, and within
each of the two groups the display strings ascend lexicographically.  The
hypothesis that no scanned entry is named `".."` reflects Rust's `read_dir`,
which never yields the `"."` or `".."` entries. -/
theorem C7_sort_order (fs : FS) (s : FileDialog) (entries : List FsEntry)
    (hrd : fs.readDir s.current_dir = some entries)
    (hn : ∀ e ∈ entries, e.name ≠ "..") :
    (s.update_entries fs).1.items.head? = some ".." ∧
      (s.update_entries fs).1.items.tail.Pairwise specOrder := by
  rw [update_entries_eq_scan fs s entries hrd]
  refine ⟨scanItems_head _ _ _, ?_⟩
  have hsorted := List.sorted_insertionSort entryLE
    (".." :: (entries.filter (keepEntry s.filter s.show_hidden)).map display)
  have hpair : (scanItems s.filter s.show_hidden entries).Pairwise entryLE := hsorted
  have htail := scanItems_tail_no_dotdot s.filter s.show_hidden entries hn
  have hpt : (scanItems s.filter s.show_hidden entries).tail.Pairwise entryLE :=
    hpair.tail
  exact hpt.imp_of_mem
    (fun ha hb hr => entryLE_specOrder (htail _ (by assumption)) (htail _ (by assumption)) hr)

/-- Witness for C7 on a concrete scan of a mixed directory. -/
theorem C7_witness :
    (baseDialog.update_entries fsDemo).1.items.head? = some ".." ∧
      (baseDialog.update_entries fsDemo).1.items.tail.Pairwise specOrder :=
  C7_sort_order fsDemo baseDialog
    [⟨"b.txt", false⟩, ⟨"sub", true⟩, ⟨"a.toml", false⟩, ⟨".git", true⟩]
    (by decide) (by decide)

/-!
### C3 — the keep/skip rule of the scan
-/

theorem matches_dir (p : FilePattern) (name : String) :
    p.matches true name = true := by
  unfold FilePattern.matches
  simp

theorem keepEntry_eq_amendedKeep (f : Option FilePattern) (hid : Bool) (e : FsEntry) :
    keepEntry f hid e = amendedKeep f hid e := by
  unfold keepEntry amendedKeep
  by_cases hd : startsWithDot e.name
  · simp [hd]
  · cases hD : e.isDir
    · simp [hd, hD]
    · cases f with
      | none => simp [hd, hD]
      | some p => simp [hd, hD, matches_dir]

/-- C3 is refuted as stated: with `show_hidden := true` and an extension
filter installed, the scan keeps the hidden file `".a.txt"` that the claimed
rule (hidden entries still subject to the filter) would skip. -/
theorem C3_counterexample :
    (c3dialog.update_entries fsHidden).1.items = ["..", ".a.txt"] ∧
      claimKeep (some (.Extension "toml")) true ⟨".a.txt", false⟩ = false := by
  decide

/-- C3 amended: the scan keeps or skips each child by `amendedKeep` — a name
starting with `'.'` is kept iff `show_hidden`, with the filter never
consulted for it; any other directory is kept unconditionally; any other file
is kept iff the filter is absent or matches. -/
theorem C3_amended_scan_rule (fs : FS) (s : FileDialog) (entries : List FsEntry)
    (hrd : fs.readDir s.current_dir = some entries) :
    (s.update_entries fs).1.items =
      List.insertionSort entryLE
        (".." :: (entries.filter (amendedKeep s.filter s.show_hidden)).map display) := by
  rw [update_entries_eq_scan fs s entries hrd]
  unfold scanItems
  rw [List.filter_congr (fun e _ => keepEntry_eq_amendedKeep s.filter s.show_hidden e)]

/-- Witness for C3's amended rule on a concrete scan. -/
theorem C3_witness :
    (c3dialog.update_entries fsHidden).1.items =
      List.insertionSort entryLE
        ((".." : String) ::
          ([⟨".a.txt", false⟩].filter (amendedKeep c3dialog.filter c3dialog.show_hidden)).map
            display) :=
  C3_amended_scan_rule fsHidden c3dialog [⟨".a.txt", false⟩] (by decide)

/-!
### C9 — cursor movement
-/

theorem next_list_state (s : FileDialog) :
    s.next.list_state = some (match s.list_state with
      | some i => min (s.items.length - 1) (i + 1)
      | none => min (s.items.length - 1) 1) := rfl

theorem previous_list_state (s : FileDialog) :
    s.previous.list_state = some (match s.list_state with
      | some i => i - 1
      | none => 0) := rfl

theorem navStep_items (s : FileDialog) (o : NavOp) : (navStep s o).items = s.items := by
  cases o <;> rfl

theorem navRun_items (s : FileDialog) (ops : List NavOp) :
    (navRun s ops).items = s.items := by
  induction ops generalizing s with
  | nil => rfl
  | cons o os ih =>
    have hstep : navRun s (o :: os) = navRun (navStep s o) os := rfl
    rw [hstep, ih, navStep_items]

theorem navStep_bounds {s : FileDialog} (hne : s.items ≠ [])
    (hc : cursorInBounds s) (o : NavOp) :
    cursorInBounds (navStep s o) ∧ ∃ i, (navStep s o).list_state = some i := by
  have hlen : 0 < s.items.length := List.length_pos.2 hne
  cases o with
  | fwd =>
    refine ⟨?_, ?_⟩
    · intro j hj
      rw [show navStep s .fwd = s.next from rfl, next_list_state] at hj
      injection hj with hj
      rw [show (navStep s .fwd).items = s.items from rfl]
      cases hls : s.list_state with
      | some i => rw [hls] at hj; simp at hj; omega
      | none => rw [hls] at hj; simp at hj; omega
    · exact ⟨_, next_list_state s⟩
  | back =>
    refine ⟨?_, ?_⟩
    · intro j hj
      rw [show navStep s .back = s.previous from rfl, previous_list_state] at hj
      injection hj with hj
      rw [show (navStep s .back).items = s.items from rfl]
      cases hls : s.list_state with
      | some i =>
        rw [hls] at hj
        simp at hj
        have hi := hc i hls
        omega
      | none => rw [hls] at hj; simp at hj; omega
    · exact ⟨_, previous_list_state s⟩

theorem navRun_bounds (s : FileDialog) (hne : s.items ≠ []) (hc : cursorInBounds s)
    (ops : List NavOp) (hnil : ops ≠ []) :
    ∃ i, (navRun s ops).list_state = some i ∧ i < s.items.length := by
  induction ops generalizing s with
  | nil => exact absurd rfl hnil
  | cons o os ih =>
    have hstep := navStep_bounds hne hc o
    have hitems := navStep_items s o
    have hrun : navRun s (o :: os) = navRun (navStep s o) os := rfl
    cases os with
    | nil =>
      rcases hstep.2 with ⟨i, hi⟩
      refine ⟨i, ?_, ?_⟩
      · rw [hrun]; exact hi
      · have hb := hstep.1 i hi
        rw [hitems] at hb
        exact hb
    | cons o2 os2 =>
      have ih2 := ih (navStep s o) (by rw [hitems]; exact hne) hstep.1 (by simp)
      rcases ih2 with ⟨i, h1, h2⟩
      refine ⟨i, ?_, ?_⟩
      · rw [hrun]; exact h1
      · rw [hitems] at h2; exact h2

/-- C9 is refuted as stated: on an empty `items` list, `next()` is not a
no-op — with the cursor unset it sets the cursor to 0 (the source would
underflow `items.len() - 1` were the cursor set). -/
theorem C9_counterexample : FileDialog.next c9empty ≠ c9empty := by decide

/-- C9 amended: for a non-empty `items` list, `next()` sets the cursor to
`min(len - 1, i + 1)` when set, to `min(len - 1, 1)` when unset;
`previous()` sets it to `i - 1` saturating at 0, to 0 when unset; and after
any non-empty sequence of moves starting from a valid (or unset) cursor the
cursor is set and lies within `[0, len - 1]`.  (On an empty list — never
reachable — `next()` with an unset cursor sets the cursor to 0.) -/
theorem C9_cursor_bounds (s : FileDialog) (hne : s.items ≠ []) :
    (s.next.list_state = some (match s.list_state with
      | some i => min (s.items.length - 1) (i + 1)
      | none => min (s.items.length - 1) 1)) ∧
    (s.previous.list_state = some (match s.list_state with
      | some i => i - 1
      | none => 0)) ∧
    (∀ ops : List NavOp, ops ≠ [] → cursorInBounds s →
      ∃ i, (navRun s ops).list_state = some i ∧ i < s.items.length) :=
  ⟨next_list_state s, previous_list_state s,
    fun ops hnil hc => navRun_bounds s hne hc ops hnil⟩

/-- Witness for C9 on a concrete dialog and move sequence. -/
theorem C9_witness :
    ∃ i, (navRun c5dialog [NavOp.fwd, NavOp.fwd, NavOp.back]).list_state = some i ∧
      i < c5dialog.items.length :=
  (C9_cursor_bounds c5dialog (by decide)).2.2 [NavOp.fwd, NavOp.fwd, NavOp.back]
    (by simp)
    (fun i hi => by
      have h1 : (some 1 : Option Nat) = some i := hi
      injection h1 with h1
      subst h1
      decide)

/-!
### C1 — what a failed rescan leaves behind
-/

theorem toggle_show_hidden_fail (fs : FS) (s : FileDialog)
    (h : fs.readDir s.current_dir = none) :
    s.toggle_show_hidden fs =
      ({ s with show_hidden := !s.show_hidden }, some .ioError) := by
  unfold FileDialog.toggle_show_hidden FileDialog.update_entries
  dsimp only
  rw [h]

theorem set_filter_fail (fs : FS) (s : FileDialog) (f : FilePattern)
    (h : fs.readDir s.current_dir = none) :
    s.set_filter fs f = ({ s with filter := some f }, some .ioError) := by
  unfold FileDialog.set_filter FileDialog.update_entries
  dsimp only
  rw [h]

theorem reset_filter_fail (fs : FS) (s : FileDialog)
    (h : fs.readDir s.current_dir = none) :
    s.reset_filter fs = ({ s with filter := none }, some .ioError) := by
  unfold FileDialog.reset_filter FileDialog.update_entries
  dsimp only
  rw [h]

theorem up_fail (fs : FS) (s : FileDialog)
    (h : fs.readDir s.current_dir.dropLast = none) :
    s.up fs =
      ({ s with current_dir := s.current_dir.dropLast, selected_indices := ∅ },
        some .ioError) := by
  unfold FileDialog.up FileDialog.update_entries
  dsimp only
  rw [h]

theorem select_canon_fail (fs : FS) (s : FileDialog) (i : Nat)
    (hi : s.list_state = some i)
    (hf : fs.isFile (FileDialog.joinEntry s.current_dir (s.items.getD i "")) = false)
    (hc : fs.canon (FileDialog.joinEntry s.current_dir (s.items.getD i "")) = none) :
    s.select fs = (s, some .ioError) := by
  unfold FileDialog.select
  rw [hi]
  dsimp only
  rw [hf]
  simp only [Bool.false_eq_true, if_false]
  rw [hc]

theorem select_scan_fail (fs : FS) (s : FileDialog) (i : Nat) (d : FsPath)
    (hi : s.list_state = some i)
    (hf : fs.isFile (FileDialog.joinEntry s.current_dir (s.items.getD i "")) = false)
    (hc : fs.canon (FileDialog.joinEntry s.current_dir (s.items.getD i "")) = some d)
    (hrd : fs.readDir d = none) :
    s.select fs =
      ({ s with current_dir := d, selected_indices := ∅ }, some .ioError) := by
  unfold FileDialog.select
  rw [hi]
  dsimp only
  rw [hf]
  simp only [Bool.false_eq_true, if_false]
  rw [hc]
  unfold FileDialog.update_entries
  dsimp only
  rw [hrd]

/-- C1 is refuted as stated: a failed rescan does propagate the error, but
the state is not left as it was — `toggle_show_hidden` has already committed
the flipped flag when the scan fails. -/
theorem C1_counterexample :
    (baseDialog.toggle_show_hidden fsAllFail).2 = some IOError.ioError ∧
      (baseDialog.toggle_show_hidden fsAllFail).1.show_hidden ≠
        baseDialog.show_hidden := by
  decide

/-- C1 amended: every rescan operation propagates scan failure, and on
failure `items` and the cursor keep the last good listing — but the mutation
that triggered the rescan is committed before the scan runs: the flipped
`show_hidden`, the new `filter`, the popped `current_dir` (and cleared
selection) for `up`, and for `select` into a directory the canonicalized new
`current_dir` with a cleared selection.  Only when `canonicalize` itself
fails does `select` leave the state fully unchanged. -/
theorem C1_commit_before_scan (fs : FS) (s : FileDialog) :
    (fs.readDir s.current_dir = none →
      s.toggle_show_hidden fs =
          ({ s with show_hidden := !s.show_hidden }, some .ioError) ∧
        (∀ f, s.set_filter fs f = ({ s with filter := some f }, some .ioError)) ∧
        s.reset_filter fs = ({ s with filter := none }, some .ioError)) ∧
    (fs.readDir s.current_dir.dropLast = none →
      s.up fs =
        ({ s with current_dir := s.current_dir.dropLast, selected_indices := ∅ },
          some .ioError)) ∧
    (∀ i, s.list_state = some i →
      fs.isFile (FileDialog.joinEntry s.current_dir (s.items.getD i "")) = false →
      (fs.canon (FileDialog.joinEntry s.current_dir (s.items.getD i "")) = none →
        s.select fs = (s, some .ioError)) ∧
      (∀ d, fs.canon (FileDialog.joinEntry s.current_dir (s.items.getD i "")) = some d →
        fs.readDir d = none →
        s.select fs =
          ({ s with current_dir := d, selected_indices := ∅ }, some .ioError))) :=
  ⟨fun h => ⟨toggle_show_hidden_fail fs s h,
      fun f => set_filter_fail fs s f h, reset_filter_fail fs s h⟩,
    fun h => up_fail fs s h,
    fun i hi hf => ⟨fun hc => select_canon_fail fs s i hi hf hc,
      fun d hc hrd => select_scan_fail fs s i d hi hf hc hrd⟩⟩

/-- Witness for C1's amended failure behavior at a concrete dialog and a
filesystem whose scans all fail. -/
theorem C1_witness :
    c1dialog.toggle_show_hidden fsAllFail =
        ({ c1dialog with show_hidden := true }, some IOError.ioError) ∧
      c1dialog.up fsAllFail =
        ({ c1dialog with current_dir := [], selected_indices := ∅ },
          some IOError.ioError) ∧
      c1dialog.select fsAllFail = (c1dialog, some IOError.ioError) := by
  have h := C1_commit_before_scan fsAllFail c1dialog
  exact ⟨(h.1 rfl).1, h.2.1 rfl, (h.2.2 0 rfl rfl).1 rfl⟩

/-!
### C2 — stale selected indices after a filter change
-/

/-- C2 names a real bug in the code: `set_filter` (unlike `up` and `select`)
does not clear `selected_indices` before rescanning, so after selecting index
2 (`"b.toml"`) and then filtering down to two items, the stale index 2 is
still selected while `items.len()` is 2.  `selected_files` then indexes
`self.items[2]` and panics.  The trace below is reached from a freshly
constructed dialog by `set_multi_selection(true)`, `next`, `toggle_selection`,
`set_filter(Extension("txt"))`. -/
theorem C2_stale_selection_bug :
    FileDialog.new fsTwoFiles 10 10 = some c5dialog ∧
      (((c5dialog.set_multi_selection true).next.toggle_selection.set_filter
            fsTwoFiles (.Extension "txt")).1.selected_indices = {2} ∧
        ((c5dialog.set_multi_selection true).next.toggle_selection.set_filter
            fsTwoFiles (.Extension "txt")).1.items.length = 2) := by
  decide

/-!
### C4 — collecting the selection
-/

/-- C4 is refuted as stated: a closed dialog with no pending selection does
not report "no result" — `selected_files` returns `Some` of an empty list. -/
theorem C4_counterexample :
    baseDialog.«open» = false ∧ baseDialog.selected_indices = ∅ ∧
      baseDialog.selected_files.2 ≠ none := by
  decide

/-- C4 amended: while open, `selected_files` returns no result and changes
nothing; while closed — whether or not a selection is pending — it returns
`Some` collection (possibly empty) of `current_dir` joined with each selected
entry (the trailing `'/'` invisible at path level), and clears
`selected_indices`. -/
theorem C4_collect (s : FileDialog) :
    (s.«open» = false →
      s.selected_files =
        ({ s with selected_indices := ∅ },
          some (s.selected_indices.val.map
            (fun i => FileDialog.joinEntry s.current_dir (s.items.getD i ""))))) ∧
    (s.«open» = true → s.selected_files = (s, none)) := by
  constructor <;> intro h <;> unfold FileDialog.selected_files <;> simp [h]

/-- Witness for C4 on a closed dialog with one selected row. -/
theorem C4_witness :
    c4dialog.selected_files =
      ({ c4dialog with selected_indices := ∅ }, some {["home", "a.txt"]}) := by
  rw [(C4_collect c4dialog).1 rfl]
  decide

/-!
### C6 — single-selection commit
-/

/-- C6: with `multi_selection` off, a clean selection state and the cursor on
a file row, `select()` succeeds, closes the dialog, and one following
`selected_files` returns exactly that path (and resets the pending state);
while a dialog is open, `selected_files` always returns no result. -/
theorem C6_single_selection_commit (fs : FS) (s : FileDialog) (i : Nat)
    (hopen : s.«open» = true) (hmulti : s.multi_selection = false)
    (hcur : s.list_state = some i) (hlt : i < s.items.length)
    (hempty : s.selected_indices = ∅)
    (hfile : fs.isFile (FileDialog.joinEntry s.current_dir (s.items.getD i "")) = true) :
    (s.select fs).2 = none ∧
    (s.select fs).1.«open» = false ∧
    (s.select fs).1.selected_files.2 =
      some {FileDialog.joinEntry s.current_dir (s.items.getD i "")} ∧
    (s.select fs).1.selected_files.1.selected_indices = ∅ ∧
    (∀ t : FileDialog, t.«open» = true → t.selected_files = (t, none)) := by
  have htog : s.toggle_selection = { s with selected_indices := {i} } := by
    unfold FileDialog.toggle_selection
    rw [hcur]
    dsimp only
    rw [hempty]
    simp
  have hsel : s.select fs =
      (FileDialog.close { s with selected_indices := ({i} : Finset Nat) }, none) := by
    unfold FileDialog.select
    rw [hcur]
    dsimp only
    rw [hfile]
    simp only [if_true]
    rw [htog]
    simp [hmulti, hcur]
  refine ⟨by rw [hsel], by rw [hsel]; rfl, ?_, ?_, ?_⟩
  · rw [hsel]
    unfold FileDialog.close FileDialog.selected_files
    simp
  · rw [hsel]
    unfold FileDialog.close FileDialog.selected_files
    simp
  · intro t ht
    unfold FileDialog.selected_files
    simp [ht]

/-- Witness for C6 at a concrete open dialog whose cursor is on `"a.txt"`. -/
theorem C6_witness :
    (c6dialog.select fsTwoFiles).2 = none ∧
    (c6dialog.select fsTwoFiles).1.«open» = false ∧
    (c6dialog.select fsTwoFiles).1.selected_files.2 = some {["home", "a.txt"]} ∧
    (c6dialog.select fsTwoFiles).1.selected_files.1.selected_indices = ∅ ∧
    (∀ t : FileDialog, t.«open» = true → t.selected_files = (t, none)) := by
  have h := C6_single_selection_commit fsTwoFiles c6dialog 1 rfl rfl rfl
    (by decide) rfl (by decide)
  exact ⟨h.1, h.2.1, by rw [h.2.2.1]; decide, h.2.2.2.1, h.2.2.2.2⟩

/-!
### C10 — toggling any kind of row
-/

/-- C10: with the cursor set, `toggle_selection` flips membership of the
cursor's index whatever kind of row it denotes — no file check is made — and
once toggled on, the joined path of that row (a directory row or the `".."`
pseudo-entry included) is among what a later `selected_files` on the closed
dialog returns. -/
theorem C10_toggle_any_row (s : FileDialog) (i : Nat) (hcur : s.list_state = some i) :
    (i ∈ s.toggle_selection.selected_indices ↔ i ∉ s.selected_indices) ∧
    (i ∉ s.selected_indices →
      FileDialog.joinEntry s.current_dir (s.items.getD i "") ∈
        (s.toggle_selection.close.selected_files.2.getD 0)) := by
  unfold FileDialog.toggle_selection
  rw [hcur]
  dsimp only
  by_cases hm : i ∈ s.selected_indices
  · simp [hm]
  · constructor
    · simp [hm]
    · intro _
      simp only [hm, if_false]
      unfold FileDialog.close FileDialog.selected_files
      simp

/-- Witness for C10: the cursor sits on the `".."` pseudo-row, and its joined
path ends up in the collected selection. -/
theorem C10_witness :
    (0 ∈ c10dialog.toggle_selection.selected_indices ↔
        0 ∉ c10dialog.selected_indices) ∧
      ["home", ".."] ∈ (c10dialog.toggle_selection.close.selected_files.2.getD 0) := by
  have h := C10_toggle_any_row c10dialog 0 rfl
  exact ⟨h.1, h.2 (by decide)⟩

/-!
### C8 — `FilePattern::matches`
-/

theorem leadMatch_iff : ∀ hay nd : List Char, leadMatch hay nd = true ↔ ∃ r, hay = nd ++ r := by
  intro hay nd
  induction nd generalizing hay with
  | nil => simp [leadMatch]
  | cons n ns ih =>
    cases hay with
    | nil => simp [leadMatch]
    | cons h hs =>
      rw [show leadMatch (h :: hs) (n :: ns) = (decide (h = n) && leadMatch hs ns) from rfl]
      simp [Bool.and_eq_true, ih, List.cons_eq_cons, exists_and_left]

theorem containsChars_iff :
    ∀ hay nd : List Char, containsChars hay nd = true ↔ ∃ l r, hay = l ++ nd ++ r := by
  intro hay nd
  induction hay with
  | nil =>
    cases nd with
    | nil => exact ⟨fun _ => ⟨[], [], rfl⟩, fun _ => rfl⟩
    | cons n ns => simp [containsChars]
  | cons h t ih =>
    rw [show containsChars (h :: t) nd = (leadMatch (h :: t) nd || containsChars t nd) from rfl]
    rw [Bool.or_eq_true, leadMatch_iff, ih]
    constructor
    · rintro (⟨r, hr⟩ | ⟨l, r, hr⟩)
      · exact ⟨[], r, by simpa using hr⟩
      · exact ⟨h :: l, r, by simp [hr]⟩
    · rintro ⟨l, r, hr⟩
      cases l with
      | nil => exact Or.inl ⟨r, by simpa using hr⟩
      | cons a l2 =>
        right
        injection hr with h1 h2
        exact ⟨l2, r, h2⟩

theorem afterLastDot_cons (c : Char) (cs : List Char) :
    afterLastDot (c :: cs) =
      match afterLastDot cs with
      | some r => some r
      | none => if c = '.' then some cs else none := rfl

theorem afterLastDot_eq_none : ∀ l : List Char, afterLastDot l = none ↔ '.' ∉ l := by
  intro l
  induction l with
  | nil => simp [afterLastDot]
  | cons c cs ih =>
    rw [afterLastDot_cons]
    cases hA : afterLastDot cs with
    | some r =>
      have hin : '.' ∈ cs := by
        by_contra hn
        exact absurd (ih.2 hn) (by simp [hA])
      simp [List.mem_cons, hin]
    | none =>
      have hnotin : '.' ∉ cs := ih.1 hA
      by_cases hc : c = '.'
      · subst hc
        simp
      · simp [List.mem_cons, hc, hnotin, Ne.symm hc]

theorem afterLastDot_some_decomp :
    ∀ l e : List Char, afterLastDot l = some e → ∃ p, l = p ++ '.' :: e ∧ '.' ∉ e := by
  intro l
  induction l with
  | nil => intro e h; simp [afterLastDot] at h
  | cons c cs ih =>
    intro e h
    rw [afterLastDot_cons] at h
    cases hA : afterLastDot cs with
    | some r =>
      rw [hA] at h
      injection h with h
      subst h
      rcases ih r hA with ⟨p, hp, hne⟩
      exact ⟨c :: p, by rw [hp]; rfl, hne⟩
    | none =>
      rw [hA] at h
      by_cases hc : c = '.'
      · rw [if_pos hc] at h
        injection h with h
        subst h
        exact ⟨[], by simp [hc], (afterLastDot_eq_none cs).1 hA⟩
      · rw [if_neg hc] at h
        exact absurd h (by simp)

theorem afterLastDot_of_decomp :
    ∀ p e : List Char, '.' ∉ e → afterLastDot (p ++ '.' :: e) = some e := by
  intro p
  induction p with
  | nil =>
    intro e he
    rw [show ([] : List Char) ++ '.' :: e = '.' :: e from rfl, afterLastDot_cons]
    rw [(afterLastDot_eq_none e).2 he]
    simp
  | cons a p ih =>
    intro e he
    rw [show (a :: p) ++ '.' :: e = a :: (p ++ '.' :: e) from rfl, afterLastDot_cons]
    rw [ih e he]

theorem extensionOf_eq_some (n : String) (e : List Char) :
    extensionOf n = some e ↔
      ∃ p, n.data = p ++ '.' :: e ∧ '.' ∉ e ∧ p ≠ [] := by
  unfold extensionOf
  cases hd : n.data with
  | nil => simp
  | cons c cs =>
    dsimp only
    by_cases hc : c = '.'
    · rw [if_pos hc]
      constructor
      · intro h
        rcases afterLastDot_some_decomp cs e h with ⟨p, hp, hne⟩
        exact ⟨c :: p, by rw [hp]; rfl, hne, by simp⟩
      · rintro ⟨p, hp, hne, hpne⟩
        cases p with
        | nil => exact absurd rfl hpne
        | cons a p2 =>
          injection hp with h1 h2
          rw [h2]
          exact afterLastDot_of_decomp p2 e hne
    · rw [if_neg hc]
      constructor
      · intro h
        rcases afterLastDot_some_decomp (c :: cs) e h with ⟨p, hp, hne⟩
        cases p with
        | nil =>
          injection hp with h1 h2
          exact absurd h1 hc
        | cons a p2 => exact ⟨a :: p2, hp, hne, by simp⟩
      · rintro ⟨p, hp, hne, hpne⟩
        rw [hp]
        exact afterLastDot_of_decomp p e hne

/-- C8 is refuted as stated: `Extension("gz")` is claimed to be a
case-insensitive suffix match against the file name, but on the file
`"a.xgz"` — whose name does end in `"gz"` — `matches` compares the extension
`"xgz"` and returns false. -/
theorem C8_counterexample :
    claimMatches (.Extension "gz") false "a.xgz" = true ∧
      FilePattern.matches (.Extension "gz") false "a.xgz" = false := by
  decide

/-- C8 amended: `matches` is true for every directory; `Substring(s)` holds
iff `s` occurs contiguously (case-sensitively) in the file name; and
`Extension(s)` holds iff the name splits as a non-empty stem, a `'.'`, and a
dot-free extension equal to `s` up to ASCII case — the extension after the
final dot must equal `s`, not merely be a suffix of the name. -/
theorem C8_matches_characterization (p : FilePattern) (name : String) :
    (FilePattern.matches p true name = true) ∧
    (∀ sub, FilePattern.matches (.Substring sub) false name = true ↔
      ∃ l r, name.data = l ++ sub.data ++ r) ∧
    (∀ ext, FilePattern.matches (.Extension ext) false name = true ↔
      ∃ pre e, name.data = pre ++ '.' :: e ∧ '.' ∉ e ∧ pre ≠ [] ∧
        e.map lowerChar = ext.data.map lowerChar) := by
  refine ⟨matches_dir p name, ?_, ?_⟩
  · intro sub
    rw [show FilePattern.matches (.Substring sub) false name =
        containsChars name.data sub.data from rfl]
    exact containsChars_iff _ _
  · intro ext
    cases hE : extensionOf name with
    | some e0 =>
      constructor
      · intro h
        have hmap : e0.map lowerChar = ext.data.map lowerChar := by
          unfold FilePattern.matches at h
          rw [hE] at h
          simpa using h
        rcases (extensionOf_eq_some name e0).1 hE with ⟨p2, hp, hne, hpne⟩
        exact ⟨p2, e0, hp, hne, hpne, hmap⟩
      · rintro ⟨pre, e1, hdec, hdf, hpre, hmap⟩
        have hE1 : extensionOf name = some e1 :=
          (extensionOf_eq_some name e1).2 ⟨pre, hdec, hdf, hpre⟩
        rw [hE] at hE1
        injection hE1 with he
        subst he
        unfold FilePattern.matches
        rw [hE]
        simpa using hmap
    | none =>
      constructor
      · intro h
        unfold FilePattern.matches at h
        rw [hE] at h
        simp at h
      · rintro ⟨pre, e1, hdec, hdf, hpre, hmap⟩
        have hE1 : extensionOf name = some e1 :=
          (extensionOf_eq_some name e1).2 ⟨pre, hdec, hdf, hpre⟩
        rw [hE] at hE1
        simp at hE1

/-- Witness for C8's amended characterization: `"a.txt"` matches
`Extension("TXT")` case-insensitively. -/
theorem C8_witness : FilePattern.matches (.Extension "TXT") false "a.txt" = true :=
  ((C8_matches_characterization (.Extension "TXT") "a.txt").2.2 "TXT").2
    ⟨['a'], ['t', 'x', 't'], by decide, by decide, by decide, by decide⟩

end TuiFileDialog
